import Mathlib

/-!
Shallow embedding of the `playing_cards.py` module (classes `PlayingCard` and
`Deck`, factory `makeDeckInNewDeckOrder`) and proofs about its deck-permutation
operations (cut, out-faro, in-faro) and its error behaviour.

Decks are modelled as Lean lists; the Python statement
`newDeck = [None for i in range(len(self))]` used by the balanced faro branch
fills a list with `None`, so deck entries are modelled as `Option α`
(`none` = Python `None`, `some c` = a card).  Python `int` arguments are
modelled as `Int`, and Python's negative-index / slice-clamping semantics are
reproduced by explicit helper functions.  Code paths that `raise` are modelled
with `Except PCError`.
-/

namespace PlayingCards

universe u

variable {α : Type u} {β : Type u}

/-- Error kinds raised by the Python code: `ValueError` from explicit range /
name checks, `ValueError` from the region check of `makeDeckInNewDeckOrder`
(the spec's `InvalidArgument`), and Python's `IndexError` from list indexing. -/
inductive PCError where
  | invalidValue
  | invalidArgument
  | indexError
deriving DecidableEq

/-- A Python value that is either an `int` or a `str`, as accepted by
`PlayingCard.__init__`'s `isinstance` dispatch. -/
inductive PyVal where
  | int : Int → PyVal
  | str : String → PyVal
deriving DecidableEq

/-- `VALUES` table from the module (14 entries, Joker at ordinal 0). -/
def VALUES : List String :=
  ["Joker", "Ace", "Two", "Three", "Four", "Five", "Six",
   "Seven", "Eight", "Nine", "Ten", "Jack", "Queen", "King"]

/-- `SUITS` table from the module (CHaSeD order). -/
def SUITS : List String := ["Clubs", "Hearts", "Spades", "Diamonds"]

/-- Helper for `pyTitle`: Python `str.title()` upper-cases an alphabetic
character that follows a non-alphabetic one (or starts the string) and
lower-cases the other alphabetic characters. -/
def pyTitleAux : Bool → List Char → List Char
  | _, [] => []
  | prevAlpha, c :: cs =>
      (if c.isAlpha then (if prevAlpha then c.toLower else c.toUpper) else c)
        :: pyTitleAux c.isAlpha cs

/-- Python's `str.title()`. -/
def pyTitle (s : String) : String := ⟨pyTitleAux false s.data⟩

/-- Python list indexing `l[i]` for a possibly negative `i`:
`none` models the `IndexError` case. -/
def pyListGet (l : List α) (i : Int) : Option α :=
  if 0 ≤ i then l[i.toNat]?
  else if (-i).toNat ≤ l.length then l[l.length - (-i).toNat]?
  else none

/-- Python slice `l[:k]` for a possibly negative `k`. -/
def pyTake (l : List α) (k : Int) : List α :=
  if 0 ≤ k then l.take k.toNat else l.take (l.length - (-k).toNat)

/-- Python slice `l[k:]` for a possibly negative `k`. -/
def pyDrop (l : List α) (k : Int) : List α :=
  if 0 ≤ k then l.drop k.toNat else l.drop (l.length - (-k).toNat)

/-- The `PlayingCard` object state set up by `PlayingCard.__init__`. -/
structure PlayingCard where
  value : Int
  value_name : String
  suit : Int
  suit_name : String
  name : String
deriving DecidableEq

/-- The `value` half of `PlayingCard.__init__`: for an `int`, reject values
above 13 and look the name up in `VALUES` (Python indexing, so negative
values index from the end and raise `IndexError` only below `-14`); for a
`str`, reject names whose `title()` form is not in `VALUES`. -/
def mkValuePair : PyVal → Except PCError (Int × String)
  | .int v =>
      if v > 13 then .error .invalidValue
      else
        match pyListGet VALUES v with
        | some nm => .ok (v, nm)
        | none => .error .indexError
  | .str s =>
      if VALUES.contains (pyTitle s) then
        .ok ((List.indexOf (pyTitle s) VALUES : Nat), pyTitle s)
      else .error .invalidValue

/-- The `suit` half of `PlayingCard.__init__`, analogous to `mkValuePair`
with bound 3 and table `SUITS`. -/
def mkSuitPair : PyVal → Except PCError (Int × String)
  | .int s =>
      if s > 3 then .error .invalidValue
      else
        match pyListGet SUITS s with
        | some nm => .ok (s, nm)
        | none => .error .indexError
  | .str s =>
      if SUITS.contains (pyTitle s) then
        .ok ((List.indexOf (pyTitle s) SUITS : Nat), pyTitle s)
      else .error .invalidValue

/-- `PlayingCard.__init__(value, suit)`. -/
def PlayingCard.mk' (value suit : PyVal) : Except PCError PlayingCard := do
  let (v, vn) ← mkValuePair value
  let (s, sn) ← mkSuitPair suit
  let name := if v = 0 then "Joker" else vn ++ " of " ++ sn
  return ⟨v, vn, s, sn, name⟩

/-- `Deck.get_card_at(index)`, i.e. `self.cards[index]` with Python
indexing semantics. -/
def get_card_at (l : List α) (index : Int) : Except PCError α :=
  match pyListGet l index with
  | some c => .ok c
  | none => .error .indexError

/-- `Deck.cut(cards_off_top)`: `-1` is the default-argument sentinel meaning
a half cut; the deck becomes `cards[k:] + cards[:k]`. -/
def cut (l : List α) (cards_off_top : Int := -1) : List α :=
  let k : Int := if cards_off_top = -1 then ((l.length / 2 : Nat) : Int)
                 else cards_off_top
  pyDrop l k ++ pyTake l k

/-- Balanced out-faro destination of the card at index `i` in a deck of
length `n`: `newPosition = i*2; if newPosition >= n: newPosition += 1;
newPosition %= n`. -/
def outPosition (n i : Nat) : Nat :=
  if n ≤ 2 * i then (2 * i + 1) % n else 2 * i

/-- Balanced in-faro destination: `newPosition = i*2 + 1;
if newPosition >= n: newPosition -= 1; newPosition %= n`. -/
def inPosition (n i : Nat) : Nat :=
  if n ≤ 2 * i + 1 then (2 * i + 1 - 1) % n else 2 * i + 1

/-- The balanced-branch write loop
`for i, card in enumerate(self.cards): newDeck[pos(i)] = card`, starting
from index `i` with accumulator `acc` (initially `[None] * n`). -/
def writeLoop (pos : Nat → Nat) : Nat → List β → List β → List β
  | _, [], acc => acc
  | i, c :: cs, acc => writeLoop pos (i + 1) cs (acc.set (pos i) c)

/-- The balanced branch of a faro: allocate `[None] * n` and write every
card to its destination. -/
def balancedFaro (pos : Nat → Nat → Nat) (cards : List (Option α)) :
    List (Option α) :=
  writeLoop (pos cards.length) 0 cards (List.replicate cards.length none)

/-- The explicit-split interleave loop of `out_faro`: per round append
`topHalf[i]` then `bottomHalf[i]`, skipping an exhausted packet
(`try ... except: pass`), for `max` rounds. -/
def weaveOut : List β → List β → List β
  | [], ys => ys
  | xs, [] => xs
  | x :: xs, y :: ys => x :: y :: weaveOut xs ys

/-- The explicit-split interleave loop of `in_faro`: bottom-packet card
first each round. -/
def weaveIn : List β → List β → List β
  | [], ys => ys
  | xs, [] => xs
  | x :: xs, y :: ys => y :: x :: weaveIn xs ys

/-- `Deck.out_faro(number_of_cards_on_top=0, number_of_cards_on_bottom=0)`.
The balanced branch runs when both parameters are zero; otherwise a zero
parameter is computed as `len(self) - other`, the packets are the slices
`cards[:top]` and `cards[-bottom:]`, and the packets are interleaved. -/
def out_faro (cards : List (Option α))
    (number_of_cards_on_top : Int := 0)
    (number_of_cards_on_bottom : Int := 0) : List (Option α) :=
  if number_of_cards_on_bottom = 0 ∧ number_of_cards_on_top = 0 then
    balancedFaro outPosition cards
  else
    let n : Int := cards.length
    let b : Int := if number_of_cards_on_bottom = 0
                   then n - number_of_cards_on_top
                   else number_of_cards_on_bottom
    let t : Int := if number_of_cards_on_bottom = 0
                   then number_of_cards_on_top
                   else if number_of_cards_on_top = 0
                        then n - number_of_cards_on_bottom
                        else number_of_cards_on_top
    weaveOut (pyTake cards t) (pyDrop cards (-b))

/-- `Deck.in_faro(number_of_cards_on_top=0, number_of_cards_on_bottom=0)`,
mirroring `out_faro` with the in-faro position formula and bottom-first
interleave. -/
def in_faro (cards : List (Option α))
    (number_of_cards_on_top : Int := 0)
    (number_of_cards_on_bottom : Int := 0) : List (Option α) :=
  if number_of_cards_on_bottom = 0 ∧ number_of_cards_on_top = 0 then
    balancedFaro inPosition cards
  else
    let n : Int := cards.length
    let b : Int := if number_of_cards_on_bottom = 0
                   then n - number_of_cards_on_top
                   else number_of_cards_on_bottom
    let t : Int := if number_of_cards_on_bottom = 0
                   then number_of_cards_on_top
                   else if number_of_cards_on_top = 0
                        then n - number_of_cards_on_bottom
                        else number_of_cards_on_top
    weaveIn (pyTake cards t) (pyDrop cards (-b))

/-- The `suitOrder` dictionary lookup of `makeDeckInNewDeckOrder`:
`mode not in suitOrder.keys()` raises `ValueError`. -/
def suitOrderFor (mode : String) : Option (List String) :=
  if mode = "US" then some ["Hearts", "Clubs", "Diamonds", "Spades"]
  else if mode = "European" then some ["Spades", "Hearts", "Diamonds", "Clubs"]
  else none

/-- `makeDeckInNewDeckOrder(mode)`: first two suits ascending Ace..King,
last two suits descending King..Ace. -/
def makeDeckInNewDeckOrder (mode : String := "US") :
    Except PCError (List PlayingCard) :=
  match suitOrderFor mode with
  | none => .error .invalidArgument
  | some suits => do
      let ascending ← (suits.take 2).mapM (fun suit =>
        (List.range' 1 13).mapM (fun v => PlayingCard.mk' (.int v) (.str suit)))
      let descending ← (suits.drop 2).mapM (fun suit =>
        (List.range' 1 13).reverse.mapM (fun v =>
          PlayingCard.mk' (.int v) (.str suit)))
      return ascending.flatten ++ descending.flatten

/-- Concrete even-length deck used to instantiate the top/bottom-card
theorem. -/
def deckFour : List (Option Nat) := [some 0, some 1, some 2, some 3]

/-- Concrete deck of length 8 used to instantiate the faro cycle theorem. -/
def deckEight : List (Option Nat) := (List.range 8).map some

/-- Concrete deck of length 52 used to instantiate the explicit-split
theorem. -/
def deckFiftyTwo : List (Option Nat) := (List.range 52).map some

/-- Concrete deck used to instantiate the cut-inverse theorem. -/
def deckFive : List Nat := [0, 1, 2, 3, 4]

/-- Concrete deck used to instantiate the duplicate-weave theorem. -/
def deckTwo : List (Option Nat) := [some 7, some 8]

/-! ### Write-loop lemmas for the balanced faro branch -/

theorem writeLoop_length (pos : Nat → Nat) :
    ∀ (cs : List β) (i : Nat) (acc : List β),
      (writeLoop pos i cs acc).length = acc.length
  | [], _, _ => rfl
  | c :: cs, i, acc => by
      simp only [writeLoop]
      rw [writeLoop_length pos cs (i + 1) _, List.length_set]

theorem writeLoop_append (pos : Nat → Nat) :
    ∀ (cs : List β) (i : Nat) (acc : List β) (c : β),
      writeLoop pos i (cs ++ [c]) acc
        = (writeLoop pos i cs acc).set (pos (i + cs.length)) c
  | [], i, acc, c => by simp [writeLoop]
  | d :: cs, i, acc, c => by
      rw [List.cons_append]
      simp only [writeLoop]
      rw [writeLoop_append pos cs (i + 1) _ c]
      have h : i + 1 + cs.length = i + (d :: cs).length := by
        simp [List.length_cons]; omega
      rw [h]

theorem writeLoop_getElem?_not_written (pos : Nat → Nat) :
    ∀ (cs : List β) (i : Nat) (acc : List β) (j : Nat),
      (∀ k, i ≤ k → k < i + cs.length → pos k ≠ j) →
      (writeLoop pos i cs acc)[j]? = acc[j]?
  | [], _, _, _, _ => rfl
  | c :: cs, i, acc, j, h => by
      simp only [writeLoop]
      rw [writeLoop_getElem?_not_written pos cs (i + 1) _ j
        (fun k hk1 hk2 => h k (by omega) (by simp [List.length_cons]; omega))]
      exact List.getElem?_set_ne
        (h i le_rfl (by simp [List.length_cons]))

theorem writeLoop_getElem?_unique (pos : Nat → Nat) :
    ∀ (cs : List β) (i : Nat) (acc : List β) (i0 : Nat),
      i ≤ i0 → i0 < i + cs.length →
      (∀ k, i ≤ k → k < i + cs.length → pos k = pos i0 → k = i0) →
      pos i0 < acc.length →
      (writeLoop pos i cs acc)[pos i0]? = cs[i0 - i]?
  | [], i, _, i0, h1, h2, _, _ => by simp at h2; omega
  | c :: cs, i, acc, i0, h1, h2, huniq, hlt => by
      simp only [writeLoop]
      by_cases heq : i0 = i
      · subst heq
        rw [writeLoop_getElem?_not_written pos cs (i0 + 1) _ (pos i0)
          (fun k hk1 hk2 hk3 => by
            have := huniq k (by omega) (by simp [List.length_cons]; omega) hk3
            omega)]
        rw [Nat.sub_self, List.getElem?_cons_zero]
        exact List.getElem?_set_eq_of_lt c hlt
      · have hgt : i < i0 := by omega
        rw [writeLoop_getElem?_unique pos cs (i + 1) _ i0 (by omega)
          (by simp [List.length_cons] at h2 ⊢; omega)
          (fun k hk1 hk2 hk3 =>
            huniq k (by omega) (by simp [List.length_cons] at hk2 ⊢; omega) hk3)
          (by rw [List.length_set]; exact hlt)]
        have h : i0 - i = (i0 - (i + 1)) + 1 := by omega
        rw [h, List.getElem?_cons_succ]

theorem balancedFaro_length (pos : Nat → Nat → Nat) (l : List (Option α)) :
    (balancedFaro pos l).length = l.length := by
  unfold balancedFaro
  rw [writeLoop_length, List.length_replicate]

/-! ### Arithmetic facts about the faro destination formulas -/

theorem sub_mod_of_lt_two_mul (m n : Nat) (h1 : n ≤ m) (h2 : m < 2 * n) :
    m % n = m - n := by
  rw [Nat.mod_eq_sub_mod h1, Nat.mod_eq_of_lt (by omega)]

theorem outPosition_closed (n i : Nat) (hi : i < n) :
    outPosition n i = if n ≤ 2 * i then 2 * i + 1 - n else 2 * i := by
  unfold outPosition
  by_cases hc : n ≤ 2 * i
  · rw [if_pos hc, if_pos hc, sub_mod_of_lt_two_mul _ _ (by omega) (by omega)]
  · rw [if_neg hc, if_neg hc]

theorem inPosition_closed (n i : Nat) (hi : i < n) :
    inPosition n i =
      if n ≤ 2 * i then 2 * i - n
      else if n ≤ 2 * i + 1 then 2 * i else 2 * i + 1 := by
  unfold inPosition
  by_cases h1 : n ≤ 2 * i
  · rw [if_pos (by omega : n ≤ 2 * i + 1), if_pos h1, Nat.add_sub_cancel,
      sub_mod_of_lt_two_mul _ _ h1 (by omega)]
  · rw [if_neg h1]
    by_cases h2 : n ≤ 2 * i + 1
    · rw [if_pos h2, if_pos h2, Nat.add_sub_cancel,
        Nat.mod_eq_of_lt (by omega)]
    · rw [if_neg h2, if_neg h2]

theorem outPosition_lt (n i : Nat) (hi : i < n) : outPosition n i < n := by
  rw [outPosition_closed n i hi]; split <;> omega

theorem inPosition_lt (n i : Nat) (hi : i < n) : inPosition n i < n := by
  rw [inPosition_closed n i hi]; split
  · omega
  · split <;> omega

theorem outPosition_zero (n : Nat) (h : 0 < n) : outPosition n 0 = 0 := by
  rw [outPosition_closed n 0 h]; split <;> omega

theorem outPosition_last (n : Nat) (h : 2 ≤ n) :
    outPosition n (n - 1) = n - 1 := by
  rw [outPosition_closed n (n - 1) (by omega)]; split <;> omega

theorem inPosition_zero (n : Nat) (h : 2 ≤ n) : inPosition n 0 = 1 := by
  rw [inPosition_closed n 0 (by omega)]
  rw [if_neg (by omega), if_neg (by omega)]

theorem inPosition_last (n : Nat) (h : 2 ≤ n) :
    inPosition n (n - 1) = n - 2 := by
  rw [inPosition_closed n (n - 1) (by omega), if_pos (by omega)]
  omega

theorem outPosition_eq_zero (n i : Nat) (hi : i < n)
    (h : outPosition n i = 0) : i = 0 := by
  rw [outPosition_closed n i hi] at h
  revert h; split <;> omega

theorem inPosition_eq_one_of_even (n i : Nat) (heven : n % 2 = 0)
    (hi : i < n) (h : inPosition n i = 1) : i = 0 := by
  rw [inPosition_closed n i hi] at h
  revert h; split
  · omega
  · split <;> omega

theorem outPosition_inj_of_even (n : Nat) (heven : n % 2 = 0)
    (i1 i2 : Nat) (h1 : i1 < n) (h2 : i2 < n)
    (h : outPosition n i1 = outPosition n i2) : i1 = i2 := by
  rw [outPosition_closed n i1 h1, outPosition_closed n i2 h2] at h
  revert h; split <;> split <;> omega

/-! ### The balanced faro branch as a positional permutation -/

theorem out_faro_balanced (l : List (Option α)) :
    out_faro l 0 0 = balancedFaro outPosition l := by
  simp [out_faro]

theorem in_faro_balanced (l : List (Option α)) :
    in_faro l 0 0 = balancedFaro inPosition l := by
  simp [in_faro]

theorem balancedFaro_getElem?_of_uniqueWriter (pos : Nat → Nat → Nat)
    (l : List (Option α)) (i0 : Nat) (hi : i0 < l.length)
    (hlt : pos l.length i0 < l.length)
    (huniq : ∀ k, k < l.length → pos l.length k = pos l.length i0 → k = i0) :
    (balancedFaro pos l)[pos l.length i0]? = l[i0]? := by
  unfold balancedFaro
  rw [writeLoop_getElem?_unique (pos l.length) l 0 _ i0 (Nat.zero_le _)
    (by omega) (fun k hk1 hk2 hk3 => huniq k (by omega) hk3)
    (by rw [List.length_replicate]; exact hlt), Nat.sub_zero]

theorem balancedFaro_getElem?_last (pos : Nat → Nat → Nat)
    (l : List (Option α)) (h : l ≠ [])
    (hlt : pos l.length (l.length - 1) < l.length) :
    (balancedFaro pos l)[pos l.length (l.length - 1)]? = l[l.length - 1]? := by
  rcases List.eq_nil_or_concat l with rfl | ⟨L, b, rfl⟩
  · exact absurd rfl h
  · rw [List.concat_eq_append] at *
    unfold balancedFaro
    rw [writeLoop_append]
    have hlen : (L ++ [b]).length - 1 = L.length := by
      simp [List.length_append]
    rw [Nat.zero_add, ← hlen]
    rw [List.getElem?_set_eq_of_lt b
      (by rw [writeLoop_length, List.length_replicate]; exact hlt)]
    rw [hlen, List.getElem?_concat_length]

/-! ### Top and bottom cards under balanced faros -/

theorem out_faro_top (l : List (Option α)) (h : 0 < l.length) :
    (out_faro l 0 0)[0]? = l[0]? := by
  rw [out_faro_balanced]
  have h0 : outPosition l.length 0 = 0 := outPosition_zero _ h
  have key := balancedFaro_getElem?_of_uniqueWriter outPosition l 0 h
    (by rw [h0]; exact h)
    (fun k hk1 hk2 => outPosition_eq_zero _ k hk1 (by rw [h0] at hk2; exact hk2))
  rw [h0] at key
  exact key

theorem out_faro_bottom (l : List (Option α)) (h : 2 ≤ l.length) :
    (out_faro l 0 0)[l.length - 1]? = l[l.length - 1]? := by
  rw [out_faro_balanced]
  have hlast := outPosition_last l.length h
  have key := balancedFaro_getElem?_last outPosition l
    (by intro he; rw [he] at h; simp at h) (by rw [hlast]; omega)
  rw [hlast] at key
  exact key

theorem in_faro_bottom (l : List (Option α)) (h : 2 ≤ l.length) :
    (in_faro l 0 0)[l.length - 2]? = l[l.length - 1]? := by
  rw [in_faro_balanced]
  have hlast := inPosition_last l.length h
  have key := balancedFaro_getElem?_last inPosition l
    (by intro he; rw [he] at h; simp at h) (by rw [hlast]; omega)
  rw [hlast] at key
  exact key

theorem in_faro_top_of_even (l : List (Option α)) (heven : l.length % 2 = 0)
    (h : 2 ≤ l.length) : (in_faro l 0 0)[1]? = l[0]? := by
  rw [in_faro_balanced]
  have h1 : inPosition l.length 0 = 1 := inPosition_zero _ h
  have key := balancedFaro_getElem?_of_uniqueWriter inPosition l 0 (by omega)
    (by rw [h1]; omega)
    (fun k hk1 hk2 => inPosition_eq_one_of_even _ k heven hk1
      (by rw [h1] at hk2; exact hk2))
  rw [h1] at key
  exact key

/-! ### The out-faro cycle on even-length decks -/

theorem out_faro_length_balanced (l : List (Option α)) :
    (out_faro l 0 0).length = l.length := by
  rw [out_faro_balanced, balancedFaro_length]

theorem out_faro_get_even (l : List (Option α)) (heven : l.length % 2 = 0)
    (i : Nat) (hi : i < l.length) :
    (out_faro l 0 0)[outPosition l.length i]? = l[i]? := by
  rw [out_faro_balanced]
  exact balancedFaro_getElem?_of_uniqueWriter outPosition l i hi
    (outPosition_lt _ _ hi)
    (fun k hk1 hk2 => outPosition_inj_of_even _ heven k i hk1 hi hk2)

theorem outPosition_iterate_lt (n m i : Nat) (hi : i < n) :
    (outPosition n)^[m] i < n := by
  induction m with
  | zero => simpa using hi
  | succ m ih =>
      rw [Function.iterate_succ_apply' (outPosition n) m i]
      exact outPosition_lt n _ ih

theorem out_faro_iterate_length (m : Nat) (l : List (Option α)) :
    ((fun d => out_faro d 0 0)^[m] l).length = l.length := by
  induction m with
  | zero => rfl
  | succ m ih =>
      rw [Function.iterate_succ_apply' (fun d : List (Option α) =>
        out_faro d 0 0) m l]
      rw [out_faro_length_balanced]
      exact ih

theorem out_faro_iterate_get (n : Nat) (heven : n % 2 = 0) (m : Nat)
    (l : List (Option α)) (hl : l.length = n) (i : Nat) (hi : i < n) :
    ((fun d => out_faro d 0 0)^[m] l)[(outPosition n)^[m] i]? = l[i]? := by
  induction m with
  | zero => rfl
  | succ m ih =>
      rw [Function.iterate_succ_apply' (fun d : List (Option α) =>
        out_faro d 0 0) m l]
      rw [Function.iterate_succ_apply' (outPosition n) m i]
      have hA : ((fun d : List (Option α) => out_faro d 0 0)^[m] l).length = n := by
        rw [out_faro_iterate_length]; exact hl
      have hFi : (outPosition n)^[m] i < n := outPosition_iterate_lt n m i hi
      have key := out_faro_get_even ((fun d : List (Option α) =>
        out_faro d 0 0)^[m] l) (by rw [hA]; exact heven)
        ((outPosition n)^[m] i) (by rw [hA]; exact hFi)
      rw [hA] at key
      rw [key]
      exact ih

theorem out_faro_iterate_id (n k' : Nat) (heven : n % 2 = 0)
    (hid : ∀ i, i < n → (outPosition n)^[k'] i = i)
    (l : List (Option α)) (hl : l.length = n) :
    (fun d => out_faro d 0 0)^[k'] l = l := by
  apply List.ext_getElem?
  intro j
  by_cases hj : j < n
  · have key := out_faro_iterate_get n heven k' l hl j hj
    rw [hid j hj] at key
    exact key
  · rw [List.getElem?_eq_none (by rw [out_faro_iterate_length, hl]; omega),
      List.getElem?_eq_none (by rw [hl]; omega)]

theorem outPosition_eq_double_mod (n x : Nat) (hn : 2 ≤ n)
    (heven : n % 2 = 0) (hx : x < n - 1) :
    outPosition n x = (2 * x) % (n - 1) := by
  rw [outPosition_closed n x (by omega)]
  by_cases hc : n ≤ 2 * x
  · rw [if_pos hc, sub_mod_of_lt_two_mul (2 * x) (n - 1) (by omega) (by omega)]
    omega
  · rw [if_neg hc, Nat.mod_eq_of_lt (by omega)]

theorem outPosition_iterate_mod (n : Nat) (hn : 2 ≤ n) (heven : n % 2 = 0) :
    ∀ (m i : Nat), i < n - 1 →
      (outPosition n)^[m] i = (2 ^ m * i) % (n - 1) := by
  intro m
  induction m with
  | zero =>
      intro i hi
      rw [Function.iterate_zero_apply, pow_zero, one_mul,
        Nat.mod_eq_of_lt hi]
  | succ m ih =>
      intro i hi
      rw [Function.iterate_succ_apply' (outPosition n) m i, ih i hi]
      have hq : 0 < n - 1 := by omega
      rw [outPosition_eq_double_mod n _ hn heven (Nat.mod_lt _ hq)]
      rw [Nat.mul_mod 2 ((2 ^ m * i) % (n - 1)) (n - 1),
        Nat.mod_mod_of_dvd (2 ^ m * i) dvd_rfl, ← Nat.mul_mod]
      have harith : 2 * (2 ^ m * i) = 2 ^ (m + 1) * i := by ring
      rw [harith]

theorem outPosition_pow_two_iterate_id (k : Nat) (hk : 1 ≤ k) :
    ∀ i, i < 2 ^ k → (outPosition (2 ^ k))^[k] i = i := by
  intro i hi
  have hn : 2 ≤ 2 ^ k := by
    calc 2 = 2 ^ 1 := (pow_one 2).symm
    _ ≤ 2 ^ k := Nat.pow_le_pow_right (by omega) hk
  have heven : 2 ^ k % 2 = 0 := by
    obtain ⟨k', rfl⟩ : ∃ k', k = k' + 1 := ⟨k - 1, by omega⟩
    rw [pow_succ]
    omega
  by_cases hlast : i = 2 ^ k - 1
  · rw [hlast]
    exact Function.iterate_fixed (outPosition_last (2 ^ k) hn) k
  · have hi' : i < 2 ^ k - 1 := by omega
    rw [outPosition_iterate_mod (2 ^ k) hn heven k i hi']
    obtain ⟨q, hq⟩ : ∃ q, 2 ^ k = q + 1 := ⟨2 ^ k - 1, by omega⟩
    rw [hq, Nat.add_sub_cancel]
    have harith : (q + 1) * i = i + i * q := by ring
    rw [harith, Nat.add_mul_mod_self_right]
    exact Nat.mod_eq_of_lt (by omega)

/-! ### Explicit-split faro lemmas -/

theorem weaveOut_length : ∀ (t b : List β),
    (weaveOut t b).length = t.length + b.length
  | [], ys => by simp [weaveOut]
  | x :: xs, [] => by simp [weaveOut]
  | x :: xs, y :: ys => by
      simp only [weaveOut, List.length_cons, weaveOut_length xs ys]
      omega

theorem weaveOut_self : ∀ (l : List β),
    weaveOut l l = l.flatMap (fun c => [c, c])
  | [] => rfl
  | x :: xs => by
      simp only [weaveOut, weaveOut_self xs, List.flatMap_cons]
      rfl

theorem out_faro_split_top (l : List (Option α)) (t : Int) (h1 : 0 < t)
    (h2 : t < l.length) :
    out_faro l t 0 = weaveOut (l.take t.toNat) (l.drop t.toNat) := by
  unfold out_faro
  rw [if_neg (fun hc => by omega)]
  simp only [if_pos rfl, if_true]
  have hts : pyTake l t = l.take t.toNat := by
    unfold pyTake; rw [if_pos (by omega)]
  have hds : pyDrop l (-((l.length : Int) - t)) = l.drop t.toNat := by
    unfold pyDrop
    rw [if_neg (by omega)]
    congr 1
    omega
  rw [hts, hds]

theorem out_faro_full_top (l : List (Option α)) (h : l ≠ []) :
    out_faro l (l.length : Int) 0 = l.flatMap (fun c => [c, c]) := by
  have hn : 0 < l.length := List.length_pos.mpr h
  unfold out_faro
  rw [if_neg (fun hc => by omega)]
  simp only [if_pos rfl, if_true, sub_self, neg_zero]
  have hts : pyTake l (l.length : Int) = l := by
    unfold pyTake
    rw [if_pos (by omega), Int.toNat_natCast, List.take_length]
  have hds : pyDrop l 0 = l := by
    unfold pyDrop
    rw [if_pos le_rfl]
    rfl
  rw [hts, hds, weaveOut_self]

/-! ### Cut lemmas -/

theorem cut_nonneg_eq (l : List α) (k : Int) (h0 : 0 ≤ k) :
    cut l k = l.drop k.toNat ++ l.take k.toNat := by
  unfold cut
  rw [if_neg (by omega)]
  unfold pyDrop pyTake
  simp only [if_pos h0]

/-! ### Indexed access -/

theorem get_card_at_nonneg (l : List α) (i : Int) (h0 : 0 ≤ i)
    (h1 : i < l.length) :
    ∃ c, l[i.toNat]? = some c ∧ get_card_at l i = .ok c := by
  have hx : i.toNat < l.length := by omega
  obtain ⟨c, hc⟩ : ∃ c, l[i.toNat]? = some c := by
    rw [List.getElem?_eq_getElem hx]; exact ⟨_, rfl⟩
  refine ⟨c, hc, ?_⟩
  unfold get_card_at pyListGet
  rw [if_pos h0, hc]

theorem get_card_at_neg_inbounds (l : List α) (i : Int)
    (h0 : -(l.length : Int) ≤ i) (h1 : i < 0) :
    ∃ c, l[((l.length : Int) + i).toNat]? = some c ∧
      get_card_at l i = .ok c := by
  have hx : ((l.length : Int) + i).toNat < l.length := by omega
  obtain ⟨c, hc⟩ : ∃ c, l[((l.length : Int) + i).toNat]? = some c := by
    rw [List.getElem?_eq_getElem hx]; exact ⟨_, rfl⟩
  refine ⟨c, hc, ?_⟩
  unfold get_card_at pyListGet
  rw [if_neg (by omega), if_pos (by omega)]
  have hidx : l.length - (-i).toNat = ((l.length : Int) + i).toNat := by omega
  rw [hidx, hc]

theorem get_card_at_out_of_bounds (l : List α) (i : Int)
    (h : (l.length : Int) ≤ i ∨ i < -(l.length : Int)) :
    get_card_at l i = .error .indexError := by
  unfold get_card_at pyListGet
  rcases h with h | h
  · rw [if_pos (by omega), List.getElem?_eq_none (by omega)]
  · rw [if_neg (by omega), if_neg (by omega)]

theorem flatMap_pair_length : ∀ (l : List β),
    (l.flatMap (fun c => [c, c])).length = 2 * l.length
  | [] => rfl
  | x :: xs => by
      simp only [List.flatMap_cons, List.length_append, List.length_cons,
        flatMap_pair_length xs, List.length_nil]
      omega

/-! ### The claims -/

/-- C1: the claim says balanced-mode faros are lossless for every deck
length, odd as well as even.  The code is not: on the 3-card deck
`[c0, c1, c2]` the balanced out-faro writes card 1 to position 2 and then
overwrites it with card 2 (destination `(2*2+1) % 3 = 2`), so the result is
`[c0, None, c2]` — card 1 is lost and a `None` hole remains, so the result
is not a permutation of the input. -/
theorem c1_out_faro_odd_loses_card :
    out_faro ([some 0, some 1, some 2] : List (Option Nat)) 0 0
      = [some 0, none, some 2] ∧
    ¬ (out_faro ([some 0, some 1, some 2] : List (Option Nat)) 0 0).Perm
        [some 0, some 1, some 2] := by
  constructor
  · decide
  · decide

/-- C2 counterexample: the claim asserts for every deck of length `n ≥ 2`
that balanced `in_faro` moves the card originally at index 0 to index 1.
On the 3-card deck `[c0, c1, c2]` the result is `[None, c2, c1]`: position 1
holds card 2, not card 0 (for odd `n` the claim is not even satisfiable
together with its bottom-card part, since `1 = n - 2` at `n = 3`). -/
theorem c2_in_faro_odd_top_counterexample :
    (in_faro ([some 0, some 1, some 2] : List (Option Nat)) 0 0)[1]?
      ≠ some (some 0) := by decide

/-- C2 (amended): for every deck of length `n ≥ 2`, balanced `out_faro`
keeps the card at index 0 at index 0 and the card at index `n-1` at index
`n-1`; balanced `in_faro` moves the card at index `n-1` to index `n-2`, and
moves the card at index 0 to index 1 provided `n` is even. -/
theorem c2_faro_top_bottom (l : List (Option α)) (h : 2 ≤ l.length) :
    (out_faro l 0 0)[0]? = l[0]? ∧
    (out_faro l 0 0)[l.length - 1]? = l[l.length - 1]? ∧
    (in_faro l 0 0)[l.length - 2]? = l[l.length - 1]? ∧
    (l.length % 2 = 0 → (in_faro l 0 0)[1]? = l[0]?) :=
  ⟨out_faro_top l (by omega), out_faro_bottom l h, in_faro_bottom l h,
   fun he => in_faro_top_of_even l he h⟩

/-- Witness for C2 at the concrete 4-card deck `deckFour`. -/
theorem c2_faro_top_bottom_witness :
    (out_faro deckFour 0 0)[0]? = deckFour[0]? ∧
    (out_faro deckFour 0 0)[deckFour.length - 1]?
      = deckFour[deckFour.length - 1]? ∧
    (in_faro deckFour 0 0)[deckFour.length - 2]?
      = deckFour[deckFour.length - 1]? ∧
    (deckFour.length % 2 = 0 → (in_faro deckFour 0 0)[1]? = deckFour[0]?) :=
  c2_faro_top_bottom deckFour (by decide)

/-- C3: iterating the balanced out-faro `k` times on a deck of length
`2 ^ k` restores the original order; in particular 3 iterations restore any
deck of length 8 and 8 iterations restore any deck of length 52. -/
theorem c3_out_faro_cycle (α : Type u) :
    (∀ (k : Nat) (l : List (Option α)), l.length = 2 ^ k →
        (fun d => out_faro d 0 0)^[k] l = l) ∧
    (∀ l : List (Option α), l.length = 8 →
        (fun d => out_faro d 0 0)^[3] l = l) ∧
    (∀ l : List (Option α), l.length = 52 →
        (fun d => out_faro d 0 0)^[8] l = l) := by
  refine ⟨?_, ?_, ?_⟩
  · intro k l hl
    rcases Nat.eq_zero_or_pos k with rfl | hk
    · rfl
    · refine out_faro_iterate_id (2 ^ k) k ?_
        (outPosition_pow_two_iterate_id k hk) l hl
      obtain ⟨k', rfl⟩ : ∃ k', k = k' + 1 := ⟨k - 1, by omega⟩
      rw [pow_succ]
      omega
  · intro l hl
    exact out_faro_iterate_id 8 3 (by norm_num) (by decide) l hl
  · intro l hl
    exact out_faro_iterate_id 52 8 (by norm_num) (by decide) l hl

/-- Witness for C3: three balanced out-faros restore the concrete 8-card
deck `deckEight`. -/
theorem c3_out_faro_cycle_witness :
    deckEight.length = 8 ∧
    (fun d => out_faro d 0 0)^[3] deckEight = deckEight :=
  ⟨by rfl, (c3_out_faro_cycle Nat).2.1 deckEight (by rfl)⟩

/-- C4: in explicit-split mode with `0 < cardsOnTop < length` and
`cardsOnBottom` omitted, the bottom packet is the last
`length - cardsOnTop` cards (`l.drop cardsOnTop`), and the result length is
`len(topPacket) + len(bottomPacket) = length`. -/
theorem c4_out_faro_split (l : List (Option α)) (t : Int) (h1 : 0 < t)
    (h2 : t < l.length) :
    out_faro l t 0 = weaveOut (l.take t.toNat) (l.drop t.toNat) ∧
    (out_faro l t 0).length = l.length := by
  have hsplit := out_faro_split_top l t h1 h2
  refine ⟨hsplit, ?_⟩
  rw [hsplit, weaveOut_length, List.length_take, List.length_drop]
  omega

/-- Witness for C4: `out_faro(cardsOnTop=18)` on the 52-card deck
`deckFiftyTwo` yields a deck of length 52. -/
theorem c4_out_faro_split_witness :
    (0 : Int) < 18 ∧ (18 : Int) < deckFiftyTwo.length ∧
    (out_faro deckFiftyTwo 18 0).length = deckFiftyTwo.length :=
  ⟨by decide, by decide, (c4_out_faro_split deckFiftyTwo 18 (by decide)
    (by decide)).2⟩

/-- C5: for `0 ≤ k ≤ length`, `cut(k)` followed by `cut(length - k)`
restores the deck. -/
theorem c5_cut_inverse (l : List α) (k : Int) (h1 : 0 ≤ k)
    (h2 : k ≤ l.length) :
    cut (cut l k) ((l.length : Int) - k) = l := by
  rw [cut_nonneg_eq l k h1]
  rw [cut_nonneg_eq (l.drop k.toNat ++ l.take k.toNat) ((l.length : Int) - k)
    (by omega)]
  have hidx : ((l.length : Int) - k).toNat = (l.drop k.toNat).length := by
    rw [List.length_drop]
    omega
  rw [hidx, List.drop_left, List.take_left, List.take_append_drop]

/-- Witness for C5 at the concrete 5-card deck `deckFive`, `k = 2`. -/
theorem c5_cut_inverse_witness :
    cut (cut deckFive 2) ((deckFive.length : Int) - 2) = deckFive :=
  c5_cut_inverse deckFive 2 (by decide) (by decide)

/-- C6 counterexample: the claim says a cut amount outside `[0, length]`
fails with an `InvalidArgument` error.  The code performs no validation:
`cut(5)` on a 2-card deck returns the deck unchanged, and `cut(-2)` on a
3-card deck silently wraps to `cut(1)`. -/
theorem c6_cut_no_error_counterexample :
    cut ([0, 1] : List Nat) 5 = [0, 1] ∧
    cut ([0, 1, 2] : List Nat) (-2) = [1, 2, 0] := by
  constructor
  · decide
  · decide

/-- C6 (amended): `cut` never raises for out-of-range amounts.  For
`k > length` the deck is returned unchanged; for `k < -length` it is also
returned unchanged; for `-length ≤ k < 0` with `k ≠ -1` the cut behaves as
`cut(length + k)` (Python slice wrap-around); `k = -1` is reserved as the
default-argument sentinel for the half cut. -/
theorem c6_cut_out_of_range (l : List α) (k : Int) :
    ((l.length : Int) < k → cut l k = l) ∧
    (k < -(l.length : Int) → cut l k = l) ∧
    (-(l.length : Int) ≤ k → k < 0 → k ≠ -1 →
      cut l k = cut l ((l.length : Int) + k)) := by
  refine ⟨?_, ?_, ?_⟩
  · intro h
    rw [cut_nonneg_eq l k (by omega), List.drop_eq_nil_of_le (by omega),
      List.take_of_length_le (by omega), List.nil_append]
  · intro h
    by_cases hne : k = -1
    · subst hne
      have hl : l = [] := List.length_eq_zero.mp (by omega)
      subst hl
      simp [cut, pyDrop, pyTake]
    · unfold cut pyDrop pyTake
      rw [if_neg hne]
      simp only [if_neg (show ¬ (0 : Int) ≤ k by omega)]
      rw [show l.length - (-k).toNat = 0 by omega]
      simp
  · intro hge hlt hne
    unfold cut pyDrop pyTake
    rw [if_neg hne, if_neg (show ¬ (l.length : Int) + k = -1 by omega)]
    simp only [if_neg (show ¬ (0 : Int) ≤ k by omega),
      if_pos (show (0 : Int) ≤ (l.length : Int) + k by omega)]
    rw [show l.length - (-k).toNat = ((l.length : Int) + k).toNat by omega]

/-- Witness for C6: `cut(7)` on a 3-card deck is a no-op. -/
theorem c6_cut_out_of_range_witness :
    cut ([0, 1, 2] : List Nat) 7 = [0, 1, 2] :=
  (c6_cut_out_of_range [0, 1, 2] 7).1 (by decide)

/-- C7: the claim (matching the code's own error message
"value must be between 0 and 13") says negative integer ranks and suits are
rejected with an `InvalidValue` error.  The code only checks the upper
bound, so `PlayingCard(-1, -1)` is accepted: Python negative indexing
resolves the names, producing a card with rank `-1` and suit `-1` named
"King of Diamonds". -/
theorem c7_negative_rank_accepted :
    PlayingCard.mk' (.int (-1)) (.int (-1))
      = .ok ⟨-1, "King", -1, "Diamonds", "King of Diamonds"⟩ := by rfl

/-- C8 counterexample: the claim says every index outside `[0, length)`
fails with `IndexOutOfRange`, but `get_card_at(-1)` on the 2-card deck
`[10, 11]` succeeds, returning the bottom card. -/
theorem c8_negative_index_counterexample :
    get_card_at ([10, 11] : List Nat) (-1) = .ok 11 := by rfl

/-- C8 (amended): `get_card_at(index)` fails with `IndexOutOfRange` exactly
when `index ≥ length` or `index < -length`; for `0 ≤ index < length` it
returns the card at that position, and for `-length ≤ index < 0` it returns
the card at position `length + index` (Python negative indexing).  It is a
pure query: the deck is never modified. -/
theorem c8_get_card_at_spec (l : List α) (i : Int) :
    ((l.length : Int) ≤ i ∨ i < -(l.length : Int) →
        get_card_at l i = .error .indexError) ∧
    (0 ≤ i → i < l.length →
        ∃ c, l[i.toNat]? = some c ∧ get_card_at l i = .ok c) ∧
    (-(l.length : Int) ≤ i → i < 0 →
        ∃ c, l[((l.length : Int) + i).toNat]? = some c ∧
          get_card_at l i = .ok c) :=
  ⟨get_card_at_out_of_bounds l i, get_card_at_nonneg l i,
   get_card_at_neg_inbounds l i⟩

/-- Witness for C8: index 5 on a 2-card deck raises the index error. -/
theorem c8_get_card_at_spec_witness :
    get_card_at ([10, 11] : List Nat) 5 = .error .indexError :=
  (c8_get_card_at_spec [10, 11] 5).1 (by decide)

/-- C9: `makeDeckInNewDeckOrder("US")` yields 52 cards, top card named
"Ace of Hearts" and bottom card named "Ace of Spades";
`makeDeckInNewDeckOrder("European")` starts with "Ace of Spades"; any other
mode string fails with the `InvalidArgument` error. -/
theorem c9_new_deck_order :
    (makeDeckInNewDeckOrder "US").map (fun d =>
        (d.length, d.head?.map PlayingCard.name, d.getLast?.map PlayingCard.name))
      = .ok (52, some "Ace of Hearts", some "Ace of Spades") ∧
    (makeDeckInNewDeckOrder "European").map (fun d =>
        d.head?.map PlayingCard.name)
      = .ok (some "Ace of Spades") ∧
    (∀ mode, mode ≠ "US" → mode ≠ "European" →
        makeDeckInNewDeckOrder mode = .error .invalidArgument) := by
  refine ⟨by rfl, by rfl, ?_⟩
  intro mode h1 h2
  unfold makeDeckInNewDeckOrder suitOrderFor
  rw [if_neg h1, if_neg h2]

/-- Witness for C9: an unknown region tag is rejected. -/
theorem c9_new_deck_order_witness :
    makeDeckInNewDeckOrder "French" = .error .invalidArgument :=
  c9_new_deck_order.2.2 "French" (by decide) (by decide)

/-- C10: on a non-empty deck of `n` cards, `out_faro` with
`number_of_cards_on_top = n` computes a bottom packet size of `0`, and
the slice `cards[-0:]` is the whole deck, so both packets are the full
deck: the result interleaves the deck with itself — each card is
immediately followed by its own duplicate and the length doubles. -/
theorem c10_out_faro_full_top_duplicates (l : List (Option α)) (h : l ≠ []) :
    out_faro l (l.length : Int) 0 = l.flatMap (fun c => [c, c]) ∧
    (out_faro l (l.length : Int) 0).length = 2 * l.length := by
  have he := out_faro_full_top l h
  refine ⟨he, ?_⟩
  rw [he, flatMap_pair_length]

/-- Witness for C10 at the concrete 2-card deck `deckTwo`. -/
theorem c10_out_faro_full_top_duplicates_witness :
    out_faro deckTwo (deckTwo.length : Int) 0
      = deckTwo.flatMap (fun c => [c, c]) ∧
    (out_faro deckTwo (deckTwo.length : Int) 0).length = 2 * deckTwo.length :=
  c10_out_faro_full_top_duplicates deckTwo (by decide)

end PlayingCards
